import Mathlib

/-!
Verification of the placeholder-inference and token-resolution core of
`scripts/setup_repo.py` (the agents-md installer).

The Python source is shallowly embedded below.  Pure string manipulation
(token scanning via `TOKEN_RE`, ticket matching via `TICKET_RE`, `str.replace`,
`--set` parsing, dictionary aggregation, the placeholder plan, and the control
flow of `main`) is translated directly.  The handful of prose regular
expressions used by the signal extractors (e.g. the `LANGUAGE.md ... for (...)`
search in `infer_from_existing_agents`) and the JSON/TOML field lookups are
abstracted as function parameters gathered in the `Patterns` structure: the
extractors are modelled exactly in how they combine, guard, trim and fall
through on those search results, while the searches themselves are treated as
oracles.  The filesystem visible to one run is modelled by `TargetDir`;
network fetches are a function `String → Except String String`.

Conventions: Python's `str.strip()` is modelled with `String.trim` and
Python dictionaries with association lists whose operations (`dput` for
`d[k] = v`, `dsetdefault` for `d.setdefault(k, v)`, `dictUpdate` for
`d.update(u)`) preserve Python's insertion-order semantics.  Brace
characters inside literals are written with `\x7b` / `\x7d` escapes.
Python's `\d` also accepts non-ASCII Unicode digits; the model restricts
attention to ASCII text, on which the two agree.
-/

namespace SetupRepo

/-- One character of the token character class `[A-Z0-9_]` of `TOKEN_RE`. -/
def isTokenChar (c : Char) : Bool :=
  ('A' ≤ c && c ≤ 'Z') || ('0' ≤ c && c ≤ '9') || c = '_'

/-- An ASCII uppercase letter, the class `[A-Z]` of `TICKET_RE`. -/
def isUpperAlpha (c : Char) : Bool :=
  'A' ≤ c && c ≤ 'Z'

/-- The class `[A-Z0-9]` of `TICKET_RE`. -/
def isUpperDigit (c : Char) : Bool :=
  ('A' ≤ c && c ≤ 'Z') || ('0' ≤ c && c ≤ '9')

/-- An ASCII digit, the class `\d` of `TICKET_RE` (restricted to ASCII). -/
def isAsciiDigit (c : Char) : Bool :=
  '0' ≤ c && c ≤ '9'

/-- `leadsWith pat l` holds when `pat` is an initial segment of `l`. -/
def leadsWith : List Char → List Char → Bool
  | [], _ => true
  | _ :: _, [] => false
  | p :: ps, c :: cs => p = c && leadsWith ps cs

/-- Substring test on character lists, the semantics of Python's `in`. -/
def hasSub (pat : List Char) : List Char → Bool
  | [] => leadsWith pat []
  | c :: cs => leadsWith pat (c :: cs) || hasSub pat cs

/-- Python's `needle in hay` on strings. -/
def inStr (needle hay : String) : Bool :=
  hasSub needle.data hay.data

/-- Python's `str.strip()`: drop leading and trailing whitespace.
`Char.isWhitespace` covers the ASCII whitespace the modelled artifacts
can contain (Python additionally strips some rarer Unicode spaces). -/
def pyStrip (s : String) : String :=
  String.mk (((s.data.dropWhile Char.isWhitespace).reverse.dropWhile Char.isWhitespace).reverse)

/-- Python's `item.split(sep, 1)`: the text before the first `sep` and
the text after it.  When `sep` does not occur the whole input is returned
as the first component; the one call site guards on `sep in item` first,
exactly as the source does. -/
def splitFirstAt (sep : Char) : List Char → List Char × List Char
  | [] => ([], [])
  | c :: cs =>
    if c = sep then ([], cs)
    else
      let r := splitFirstAt sep cs
      (c :: r.1, r.2)

/-- Lookup in an association-list model of a Python `dict`. -/
def dlookup : List (String × String) → String → Option String
  | [], _ => none
  | (k', v) :: rest, k => if k' = k then some v else dlookup rest k

/-- Python `d[k] = v`: replace the binding in place when the key exists
(keys are unique in every dict the script builds, so replacing the first
binding is exact), else append at the end, preserving insertion order. -/
def dput : List (String × String) → String → String → List (String × String)
  | [], k, v => [(k, v)]
  | (k', w) :: rest, k, v =>
    if k' = k then (k, v) :: rest else (k', w) :: dput rest k v

/-- Python `d.setdefault(k, v)`. -/
def dsetdefault (m : List (String × String)) (k v : String) : List (String × String) :=
  if (dlookup m k).isSome then m else m ++ [(k, v)]

/-- Python `d.update(u)`, folding the entries of `u` into `m` in order. -/
def dictUpdate (m u : List (String × String)) : List (String × String) :=
  u.foldl (fun acc kv => dput acc kv.1 kv.2) m

/-- The keys of a dict model are pairwise distinct. -/
def NodupKeys (m : List (String × String)) : Prop :=
  (m.map Prod.fst).Nodup

instance {ε α : Type} [DecidableEq ε] [DecidableEq α] : DecidableEq (Except ε α) :=
  fun x y =>
    match x, y with
    | .ok a, .ok b =>
      if h : a = b then isTrue (by rw [h]) else isFalse (fun he => h (Except.ok.inj he))
    | .error e, .error f =>
      if h : e = f then isTrue (by rw [h]) else isFalse (fun he => h (Except.error.inj he))
    | .ok _, .error _ => isFalse (fun he => Except.noConfusion he)
    | .error _, .ok _ => isFalse (fun he => Except.noConfusion he)

/-- `digits1 l` holds when `l` is one or more ASCII digits: the `\d+` tail of
`TICKET_RE`. -/
def digits1 : List Char → Bool
  | [] => false
  | c :: rest => isAsciiDigit c && rest.all isAsciiDigit

/-- After at least one character of `[A-Z0-9]+` has been consumed: zero or
more further `[A-Z0-9]` characters, then `-`, then `\d+`. -/
def ticketTail : List Char → Bool
  | [] => false
  | c :: rest => if isUpperDigit c then ticketTail rest else c = '-' && digits1 rest

/-- `TICKET_RE.fullmatch`: the whole string matches
`\b([A-Z][A-Z0-9]+-\d+)\b` (the boundary anchors are vacuous for a full
match, and `-` belongs to neither character class, so the greedy match is
deterministic). -/
def ticket_fullmatch (s : String) : Bool :=
  match s.data with
  | c1 :: c2 :: rest => isUpperAlpha c1 && isUpperDigit c2 && ticketTail rest
  | _ => false

/-- Modelled from the spec claim wording: one or more uppercase
letters/digits starting with a letter, then a hyphen, then one or more
digits.  Kept separate from `ticket_fullmatch`, which is translated
from the source pattern, so the two can be compared. -/
def spec_ticket (s : String) : Bool :=
  match s.data with
  | c :: rest => isUpperAlpha c && ticketTail rest
  | [] => false

/-- Try to match `TOKEN_RE` = `\x7b\x7b([A-Z0-9_]+)\x7d\x7d` at the head of
`l`; on success return the captured name and the rest of the input after
the match. -/
def matchAt (l : List Char) : Option (List Char × List Char) :=
  match l with
  | '\x7b' :: '\x7b' :: rest =>
    let tok := rest.takeWhile isTokenChar
    match rest.dropWhile isTokenChar with
    | '\x7d' :: '\x7d' :: rest' => if tok = [] then none else some (tok, rest')
    | _ => none
  | _ => none

/-- The scanning loop of `TOKEN_RE.findall`, structurally recursive on a
fuel argument (one unit of fuel per input position; `findTokens` supplies
`l.length`, which always suffices). -/
def findTokensF : Nat → List Char → List (List Char)
  | 0, _ => []
  | Nat.succ fuel, l =>
    match matchAt l with
    | some (tok, rest) => tok :: findTokensF fuel rest
    | none =>
      match l with
      | [] => []
      | _ :: rest => findTokensF fuel rest

/-- `TOKEN_RE.findall`: scan left to right; on a failed match advance one
character, on a successful match continue after it (non-overlapping
occurrences, as in Python's `re.findall`). -/
def findTokens (l : List Char) : List (List Char) :=
  findTokensF l.length l

/-- `unresolved_tokens` (setup_repo.py line 81): `sorted(set(TOKEN_RE.findall(contents)))`. -/
def unresolved_tokens (contents : String) : List String :=
  (((findTokens contents.data).map (fun l => String.mk l)).dedup).insertionSort (· ≤ ·)

/-- The scanning loop of Python's `str.replace`, structurally recursive
on a fuel argument (`pyReplace` supplies the input length, which always
suffices). -/
def pyReplaceF : Nat → List Char → List Char → List Char → List Char
  | 0, _, _, s => s
  | Nat.succ fuel, pat, rep, s =>
    match s with
    | [] => []
    | c :: cs =>
      if pat ≠ [] ∧ leadsWith pat (c :: cs) = true then
        rep ++ pyReplaceF fuel pat rep ((c :: cs).drop pat.length)
      else
        c :: pyReplaceF fuel pat rep cs

/-- Python's `str.replace(pat, rep)`: replace every non-overlapping
occurrence of `pat`, scanning left to right and continuing after each
replacement.  All call sites in the source use a non-empty pattern; an
empty pattern is mapped to the identity here. -/
def pyReplace (pat rep s : List Char) : List Char :=
  pyReplaceF s.length pat rep s

/-- The renderer's substitution loop (setup_repo.py lines 421-422):
`for token, value in replacements.items(): contents = contents.replace("\x7b\x7b"+token+"\x7d\x7d", value)`. -/
def render (replacements : List (String × String)) (contents : String) : String :=
  replacements.foldl
    (fun c kv => String.mk (pyReplace ("\x7b\x7b" ++ kv.1 ++ "\x7d\x7d").data kv.2.data c.data))
    contents

/-- What one path in the target directory can look like to the script:
missing, a non-file directory entry, a file whose read raises
(`OSError` / `UnicodeDecodeError`), or readable text. -/
inductive FileState where
  | absent
  | dirEntry
  | unreadable
  | text (s : String)
deriving DecidableEq

/-- Python's `path.exists()` for a modelled entry. -/
def fsExists : FileState → Bool
  | .absent => false
  | _ => true

/-- `read_text_if_exists` (setup_repo.py lines 85-91): the text of an
existing regular file, `None` on a missing path, a non-file, or a
read/decode error. -/
def read_text_if_exists : FileState → Option String
  | .text s => some s
  | _ => none

/-- The slice of the target directory the script inspects.  `plans_stems`
is `some` exactly when `plans/` exists and is a directory, and then holds
the stems of its `*.md` entries in sorted order (the order produced by
`sorted(plans_dir.glob("*.md"))`).  `git_branch` is `some` of the raw
`git rev-parse --abbrev-ref HEAD` output when the call succeeds. -/
structure TargetDir where
  agents_md : FileState
  app_md : FileState
  plans_md : FileState
  language_md : FileState
  workflow_md : FileState
  package_json : FileState
  pyproject_toml : FileState
  cargo_toml : FileState
  go_mod : FileState
  requirements_txt : FileState
  makefile : FileState
  pytest_ini : FileState
  github_exists : Bool
  plans_stems : Option (List String)
  git_branch : Option String
  dir_name : String

/-- The fixed regular-expression searches and JSON/TOML field lookups of
setup_repo.py, abstracted as oracles.  Each field returns what the
corresponding Python expression returns: for a `re.search`, `some` of
capture group 1 when the pattern matches; for a manifest lookup, the raw
field value when the document parses and the field is a string (`none`
both on a parse error and on a missing or non-string field, exactly the
two conditions the source lets fall through identically). -/
structure Patterns where
  lang_in_agents : String → Option String
  app_in_agents : String → Option String
  tracker_in_agents : String → Option String
  test_in_agents : String → Option String
  epic_in_agents : String → Option String
  tracker_id_in_agents : String → Option String
  app_heading : String → Option String
  has_go_word : String → Bool
  has_python_word : String → Bool
  module_path : String → Option String
  run_tests_cmd : String → Option String
  has_make_test : String → Bool
  json_name : String → Option String
  toml_project_name : String → Option String
  toml_package_name : String → Option String
  json_test_script : String → Bool
  ticket_search : String → Option String

/-- The `--language` choices accepted by argparse. -/
inductive Language where
  | go
  | python
deriving DecidableEq

/-- The `--workflow` choices accepted by argparse. -/
inductive Workflow where
  | beads
  | github
  | linear
  | markdown
  | template
deriving DecidableEq

/-- `LANGUAGE_SOURCES` (setup_repo.py lines 17-20). -/
def LANGUAGE_SOURCES : Language → String
  | .go => "languages/GO.md"
  | .python => "languages/PYTHON.md"

/-- `WORKFLOW_SOURCES` (setup_repo.py lines 22-28). -/
def WORKFLOW_SOURCES : Workflow → String
  | .beads => "workflows/BEADS.md"
  | .github => "workflows/GITHUB.md"
  | .linear => "workflows/LINEAR.md"
  | .markdown => "workflows/MARKDOWN.md"
  | .template => "workflows/TEMPLATE.md"

/-- `WORKFLOW_TRACKER_NAME` (setup_repo.py lines 33-39). -/
def WORKFLOW_TRACKER_NAME : Workflow → String
  | .beads => "Beads"
  | .github => "GitHub Issues"
  | .linear => "Linear"
  | .markdown => "Markdown tracker"
  | .template => "Linear"

/-- `LANGUAGE_DISPLAY_NAME` (setup_repo.py lines 41-44). -/
def LANGUAGE_DISPLAY_NAME : Language → String
  | .go => "Go"
  | .python => "Python"

/-- `infer_from_existing_agents` (setup_repo.py lines 94-126): pattern
matches against the prose of an existing `AGENTS.md`.  Empty or missing
text yields no candidates (`if not text`). -/
def infer_from_existing_agents (ps : Patterns) (t : TargetDir) : List (String × String) :=
  match read_text_if_exists t.agents_md with
  | none => []
  | some text =>
    if text = "" then [] else
    let values : List (String × String) := []
    let values := match ps.lang_in_agents text with
      | some g => dput values "LANGUAGE_NAME" (pyStrip g)
      | none => values
    let values := match ps.app_in_agents text with
      | some g =>
        let candidate := pyStrip g
        if candidate ≠ "" ∧ inStr "\x7b\x7b" candidate = false then
          dput values "APP_NAME" candidate
        else values
      | none => values
    let values := match ps.tracker_in_agents text with
      | some g => dput values "TRACKER_NAME" (pyStrip g)
      | none => values
    let values := match ps.test_in_agents text with
      | some g => dput values "TEST_COMMAND" (pyStrip g)
      | none => values
    let values := match ps.epic_in_agents text with
      | some g => dput values "EPIC_ID" g
      | none => values
    let values := match ps.tracker_id_in_agents text with
      | some g => dput values "TRACKER_ID" g
      | none => values
    values

/-- `module.rstrip("/")` for the Go module path. -/
def rstripSlash (s : String) : String :=
  String.mk (s.data.reverse.dropWhile (fun c => c = '/')).reverse

/-- `module.rstrip("/").split("/")[-1]` (setup_repo.py line 171): the
last `/`-separated component, i.e. the suffix after the last `/`. -/
def goModLast (module : String) : String :=
  String.mk (((rstripSlash module).data.reverse.takeWhile (fun c => ¬ (c = '/'))).reverse)

/-- Lines 130-134 of `infer_app_name`: the `APP.md` heading (a matched
heading without braces returns unconditionally, even when it trims to the
empty string). -/
def appNameFromHeading (ps : Patterns) (fs : FileState) : Option String :=
  match read_text_if_exists fs with
  | some app_md =>
    if app_md ≠ "" then
      match ps.app_heading app_md with
      | some h => if inStr "\x7b\x7b" h then none else some (pyStrip h)
      | none => none
    else none
  | none => none

/-- Lines 136-144 of `infer_app_name`: the `name` field of
`package.json` when the JSON parses and the field is a non-blank string. -/
def appNameFromPackageJson (ps : Patterns) (fs : FileState) : Option String :=
  match read_text_if_exists fs with
  | some s =>
    if s ≠ "" then
      match ps.json_name s with
      | some name => if pyStrip name ≠ "" then some (pyStrip name) else none
      | none => none
    else none
  | none => none

/-- Lines 146-154 of `infer_app_name`: the `project.name` field of
`pyproject.toml`. -/
def appNameFromPyproject (ps : Patterns) (fs : FileState) : Option String :=
  match read_text_if_exists fs with
  | some s =>
    if s ≠ "" then
      match ps.toml_project_name s with
      | some name => if pyStrip name ≠ "" then some (pyStrip name) else none
      | none => none
    else none
  | none => none

/-- Lines 156-164 of `infer_app_name`: the `package.name` field of
`Cargo.toml`. -/
def appNameFromCargo (ps : Patterns) (fs : FileState) : Option String :=
  match read_text_if_exists fs with
  | some s =>
    if s ≠ "" then
      match ps.toml_package_name s with
      | some name => if pyStrip name ≠ "" then some (pyStrip name) else none
      | none => none
    else none
  | none => none

/-- Lines 166-171 of `infer_app_name`: the tail of a `go.mod` module
path. -/
def appNameFromGoMod (ps : Patterns) (fs : FileState) : Option String :=
  match read_text_if_exists fs with
  | some s =>
    if s ≠ "" then (ps.module_path s).map goModLast else none
  | none => none

/-- `infer_app_name` (setup_repo.py lines 129-175): the `APP.md` heading,
else the `name` field of a JS/Python/Rust manifest, else the tail of a Go
module path, else the directory's own name.  Each stage that fails falls
through to the next. -/
def infer_app_name (ps : Patterns) (t : TargetDir) : Option String :=
  appNameFromHeading ps t.app_md <|>
  appNameFromPackageJson ps t.package_json <|>
  appNameFromPyproject ps t.pyproject_toml <|>
  appNameFromCargo ps t.cargo_toml <|>
  appNameFromGoMod ps t.go_mod <|>
  (if t.dir_name ≠ "" then some t.dir_name else none)

/-- `infer_language_name` (setup_repo.py lines 178-191): keyword match in
a rendered `LANGUAGE.md`, else manifest-file existence, else the display
name of the `--language` choice. -/
def infer_language_name (ps : Patterns) (t : TargetDir) (language_choice : Language) : String :=
  match (match read_text_if_exists t.language_md with
         | some s =>
           if s ≠ "" then
             if ps.has_go_word s then some "Go"
             else if ps.has_python_word s then some "Python"
             else none
           else none
         | none => none) with
  | some v => v
  | none =>
    if fsExists t.go_mod then "Go"
    else if fsExists t.pyproject_toml || fsExists t.requirements_txt then "Python"
    else LANGUAGE_DISPLAY_NAME language_choice

/-- `infer_tracker_name` (setup_repo.py lines 194-209): literal substring
match in a rendered `WORKFLOW.md`, else presence of `.github`, else the
tracker name of the `--workflow` choice. -/
def infer_tracker_name (t : TargetDir) (workflow_choice : Workflow) : String :=
  match (match read_text_if_exists t.workflow_md with
         | some s =>
           if s ≠ "" then
             if inStr "Linear" s then some "Linear"
             else if inStr "GitHub" s then some "GitHub Issues"
             else if inStr "Beads" s then some "Beads"
             else if inStr "Markdown" s then some "Markdown tracker"
             else none
           else none
         | none => none) with
  | some v => v
  | none =>
    if t.github_exists then "GitHub Issues"
    else WORKFLOW_TRACKER_NAME workflow_choice

/-- Lines 213-219 of `infer_test_command`: a documented
`Run tests locally:` command in `APP.md`, when non-blank and without
braces. -/
def testCmdFromAppMd (ps : Patterns) (fs : FileState) : Option String :=
  match read_text_if_exists fs with
  | some app_md =>
    if app_md ≠ "" then
      match ps.run_tests_cmd app_md with
      | some g =>
        let candidate := pyStrip g
        if candidate ≠ "" ∧ inStr "\x7b\x7b" candidate = false then some candidate else none
      | none => none
    else none
  | none => none

/-- Lines 221-223 of `infer_test_command`: a `test:` target in a
Makefile. -/
def testCmdFromMakefile (ps : Patterns) (fs : FileState) : Option String :=
  match read_text_if_exists fs with
  | some s => if s ≠ "" ∧ ps.has_make_test s then some "make test" else none
  | none => none

/-- Lines 225-233 of `infer_test_command`: a string `test` script in
`package.json` when the JSON parses. -/
def testCmdFromPackageJson (ps : Patterns) (fs : FileState) : Option String :=
  match read_text_if_exists fs with
  | some s => if s ≠ "" ∧ ps.json_test_script s then some "npm test" else none
  | none => none

/-- `infer_test_command` (setup_repo.py lines 212-245): a documented
command in `APP.md`, else a Makefile `test:` target, else a JS test
script, else project files implying a conventional command, else the
default for the `--language` choice. -/
def infer_test_command (ps : Patterns) (t : TargetDir) (language_choice : Language) :
    Option String :=
  testCmdFromAppMd ps t.app_md <|>
  testCmdFromMakefile ps t.makefile <|>
  testCmdFromPackageJson ps t.package_json <|>
  (if fsExists t.go_mod then some "go test ./..." else none) <|>
  (if fsExists t.pyproject_toml || fsExists t.pytest_ini then some "pytest" else none) <|>
  (match language_choice with
   | .go => some "go test ./..."
   | .python => some "pytest")

/-- First block of `infer_ids` (setup_repo.py lines 251-257): the epic id
from the first `plans/*.md` stem that fully matches `TICKET_RE`. -/
def infer_ids_plans (t : TargetDir) (values : List (String × String)) :
    List (String × String) :=
  match t.plans_stems with
  | some stems =>
    match stems.find? (fun st => ticket_fullmatch st) with
    | some st => dput values "EPIC_ID" st
    | none => values
  | none => values

/-- Second block of `infer_ids` (setup_repo.py lines 259-270): ids from
the git branch name, with `setdefault` semantics; a failing git call
contributes nothing. -/
def infer_ids_branch (ps : Patterns) (t : TargetDir) (values : List (String × String)) :
    List (String × String) :=
  match t.git_branch with
  | some out =>
    match ps.ticket_search (pyStrip out) with
    | some g => dsetdefault (dsetdefault values "TRACKER_ID" g) "EPIC_ID" g
    | none => values
  | none => values

/-- Third block of `infer_ids` (setup_repo.py lines 272-277): a tracker
id from the prior `AGENTS.md`, only when none was found so far. -/
def infer_ids_agents (ps : Patterns) (t : TargetDir) (values : List (String × String)) :
    List (String × String) :=
  if (dlookup values "TRACKER_ID").isSome then values
  else match read_text_if_exists t.agents_md with
    | some s =>
      if s ≠ "" then
        match ps.ticket_search s with
        | some g => dput values "TRACKER_ID" g
        | none => values
      else values
    | none => values

/-- `infer_ids` (setup_repo.py lines 248-279): the three blocks above run
in order on an initially empty dict. -/
def infer_ids (ps : Patterns) (t : TargetDir) : List (String × String) :=
  infer_ids_agents ps t (infer_ids_branch ps t (infer_ids_plans t []))

/-- The `if x: values.setdefault(key, x)` shape used for the app name
(setup_repo.py lines 286-288) and the test command (lines 293-295):
a `None` or empty candidate contributes nothing. -/
def dsetdefaultIfTruthy (values : List (String × String)) (key : String) :
    Option String → List (String × String)
  | some a => if a ≠ "" then dsetdefault values key a else values
  | none => values

/-- `infer_replacements` (setup_repo.py lines 282-298): existing-AGENTS
candidates first, then `setdefault` for the app name, language name,
tracker name and test command, then `update` with the non-empty
identifier candidates. -/
def infer_replacements (ps : Patterns) (t : TargetDir)
    (language_choice : Language) (workflow_choice : Workflow) : List (String × String) :=
  let values := infer_from_existing_agents ps t
  let values := dsetdefaultIfTruthy values "APP_NAME" (infer_app_name ps t)
  let values := dsetdefault values "LANGUAGE_NAME" (infer_language_name ps t language_choice)
  let values := dsetdefault values "TRACKER_NAME" (infer_tracker_name t workflow_choice)
  let values := dsetdefaultIfTruthy values "TEST_COMMAND" (infer_test_command ps t language_choice)
  dictUpdate values ((infer_ids ps t).filter (fun p => p.2 ≠ ""))

/-- `parse_key_value` (setup_repo.py lines 47-57): split each `--set`
item at the first `=`, strip the key, reject items without `=` or with a
blank key, last assignment to a key wins. -/
def parse_key_value (items : List String) : Except String (List (String × String)) :=
  items.foldlM
    (fun pairs item =>
      if inStr "=" item = false then
        Except.error ("Invalid --set value " ++ item ++ ". Expected KEY=VALUE.")
      else
        let parts := splitFirstAt '=' item.data
        let key := pyStrip (String.mk parts.1)
        let value := String.mk parts.2
        if key = "" then
          Except.error ("Invalid --set value " ++ item ++ ". Key is empty.")
        else
          Except.ok (dput pairs key value))
    []

/-- `print_placeholder_plan` (setup_repo.py lines 301-311): collect, in
order, the required tokens whose value in the replacement map strips to
the empty string or is absent (`replacements.get(token, "").strip()`).
The printed plan lines are dropped from the model; the returned missing
list is the gate condition. -/
def print_placeholder_plan (tokens : List String) (replacements : List (String × String)) :
    List String :=
  tokens.foldl
    (fun missing token =>
      if pyStrip ((dlookup replacements token).getD "") ≠ "" then missing
      else missing ++ [token])
    []

/-- `collect_sources` (setup_repo.py lines 71-78). -/
def collect_sources (language : Language) (workflow : Workflow) : List (String × String) :=
  [("_AGENTS.md", "AGENTS.md"),
   ("APP.md", "APP.md"),
   ("PLANS.md", "PLANS.md"),
   (LANGUAGE_SOURCES language, "LANGUAGE.md"),
   (WORKFLOW_SOURCES workflow, "WORKFLOW.md")]

/-- The entry of the target directory a destination file name refers to
(the five names produced by `collect_sources`). -/
def destState (t : TargetDir) (dest : String) : FileState :=
  if dest = "AGENTS.md" then t.agents_md
  else if dest = "APP.md" then t.app_md
  else if dest = "PLANS.md" then t.plans_md
  else if dest = "LANGUAGE.md" then t.language_md
  else t.workflow_md

/-- The command-line surface of `main` relevant to the model.
`target_ok` stands for `target.exists() and target.is_dir()`. -/
structure Args where
  target_ok : Bool
  set_items : List String
  language : Language
  workflow : Workflow
  force : Bool
  dry_run : Bool
  infer_only : Bool

/-- The observable outcome of a run: exit code, the files written (name
and contents, in order), and whether `plans/` was created/ensured. -/
structure RunOutcome where
  code : Nat
  writes : List (String × String)
  made_plans_dir : Bool
deriving DecidableEq

/-- The render loop of `main` (setup_repo.py lines 411-435): fetch each
remaining source (reusing the already-fetched primary template), apply
the replacement map, and fail the whole run when a fetch fails or when
the rendered `AGENTS.md` still contains a token.  `none` models the
`return 1` paths. -/
def renderAll (fetch : String → Except String String) (template : String)
    (repl : List (String × String)) : List (String × String) → Option (List (String × String))
  | [] => some []
  | (source_path, dest_name) :: rest =>
    match (if source_path = "_AGENTS.md" then Except.ok template else fetch source_path) with
    | .error _ => none
    | .ok contents =>
      let rendered := render repl contents
      if dest_name = "AGENTS.md" ∧ unresolved_tokens rendered ≠ [] then none
      else
        match renderAll fetch template repl rest with
        | none => none
        | some rs => some ((dest_name, rendered) :: rs)

/-- `main` (setup_repo.py lines 314-460), after argument parsing:
validate the target, parse `--set`, fetch the primary template, infer and
aggregate replacements, print the placeholder plan, stop in
`--infer-only` mode, gate on missing mandatory tokens, gate on
pre-existing destinations without `--force`, render everything, and
either report (dry run) or write all files and ensure `plans/`. -/
def main (ps : Patterns) (fetch : String → Except String String) (t : TargetDir)
    (args : Args) : RunOutcome :=
  if args.target_ok = false then ⟨1, [], false⟩ else
  match parse_key_value args.set_items with
  | .error _ => ⟨1, [], false⟩
  | .ok explicit_replacements =>
    match fetch "_AGENTS.md" with
    | .error _ => ⟨1, [], false⟩
    | .ok agents_template =>
      let agents_tokens := unresolved_tokens agents_template
      let inferred := infer_replacements ps t args.language args.workflow
      let replacements := dictUpdate inferred explicit_replacements
      let missing_agents_tokens := print_placeholder_plan agents_tokens replacements
      if args.infer_only then ⟨0, [], false⟩ else
      if missing_agents_tokens ≠ [] then ⟨1, [], false⟩ else
      let sources := collect_sources args.language args.workflow
      let existing := (sources.map Prod.snd).filter (fun d => fsExists (destState t d))
      if existing ≠ [] ∧ args.force = false then ⟨1, [], false⟩ else
      match renderAll fetch agents_template replacements sources with
      | none => ⟨1, [], false⟩
      | some rendered_files =>
        if args.dry_run then ⟨0, [], false⟩
        else ⟨0, rendered_files, true⟩

/-- A pattern oracle on which every search fails: the behaviour of the
source regular expressions and manifest lookups on text none of them
matches. -/
def trivialPatterns : Patterns where
  lang_in_agents := fun _ => none
  app_in_agents := fun _ => none
  tracker_in_agents := fun _ => none
  test_in_agents := fun _ => none
  epic_in_agents := fun _ => none
  tracker_id_in_agents := fun _ => none
  app_heading := fun _ => none
  has_go_word := fun _ => false
  has_python_word := fun _ => false
  module_path := fun _ => none
  run_tests_cmd := fun _ => none
  has_make_test := fun _ => false
  json_name := fun _ => none
  toml_project_name := fun _ => none
  toml_package_name := fun _ => none
  json_test_script := fun _ => false
  ticket_search := fun _ => none

/-- A bare target directory named `proj`: no files, no git, no `plans/`. -/
def emptyTarget : TargetDir where
  agents_md := .absent
  app_md := .absent
  plans_md := .absent
  language_md := .absent
  workflow_md := .absent
  package_json := .absent
  pyproject_toml := .absent
  cargo_toml := .absent
  go_mod := .absent
  requirements_txt := .absent
  makefile := .absent
  pytest_ini := .absent
  github_exists := false
  plans_stems := none
  git_branch := none
  dir_name := "proj"

/-- Pattern oracle for a target whose existing `AGENTS.md` mentions an
app name (`... APP.md ... for alpha.`) while `package.json` is
`\x7b"name": "beta"\x7d`: the existing-AGENTS app search returns `alpha`
and the JSON name lookup returns `beta`. -/
def conflictPatterns : Patterns :=
  { trivialPatterns with
      app_in_agents := fun _ => some "alpha"
      json_name := fun _ => some "beta" }

/-- A target holding a readable prior `AGENTS.md` and a `package.json`,
the artifacts `conflictPatterns` describes. -/
def conflictTarget : TargetDir :=
  { emptyTarget with
      agents_md := .text "docs"
      package_json := .text "manifest" }

/-- A fetch collaborator whose primary template is the lone token
`\x7b\x7bX\x7d\x7d` and whose other sources are token-free. -/
def fetchTokenX : String → Except String String :=
  fun source_path =>
    if source_path = "_AGENTS.md" then Except.ok "\x7b\x7bX\x7d\x7d" else Except.ok "plain"

/-- A fetch collaborator all of whose sources are the token-free text
`plain`. -/
def fetchPlain : String → Except String String :=
  fun _ => Except.ok "plain"

/-- `emptyTarget` with a pre-existing `AGENTS.md` destination file. -/
def occupiedTarget : TargetDir :=
  { emptyTarget with agents_md := .text "old contents" }

theorem dlookup_append_some {m : List (String × String)} {k v : String}
    (m' : List (String × String)) (h : dlookup m k = some v) :
    dlookup (m ++ m') k = some v := by
  induction m with
  | nil => simp [dlookup] at h
  | cons p rest ih =>
    obtain ⟨k', w⟩ := p
    by_cases hk : k' = k
    · simpa [dlookup, hk] using (by simpa [dlookup, hk] using h)
    · simp only [dlookup, hk, if_false, List.cons_append] at h ⊢
      exact ih h

theorem dlookup_append_none {m : List (String × String)} {k : String}
    (m' : List (String × String)) (h : dlookup m k = none) :
    dlookup (m ++ m') k = dlookup m' k := by
  induction m with
  | nil => simp
  | cons p rest ih =>
    obtain ⟨k', w⟩ := p
    by_cases hk : k' = k
    · simp [dlookup, hk] at h
    · simp only [dlookup, hk, if_false, List.cons_append] at h ⊢
      exact ih h

theorem dlookup_dput_self (m : List (String × String)) (k v : String) :
    dlookup (dput m k v) k = some v := by
  induction m with
  | nil => simp [dput, dlookup]
  | cons p rest ih =>
    obtain ⟨k', w⟩ := p
    by_cases hk : k' = k
    · simp [dput, hk, dlookup]
    · simp [dput, hk, dlookup, ih]

theorem dlookup_dput_ne {k' k : String} (m : List (String × String)) (v : String)
    (h : k' ≠ k) : dlookup (dput m k v) k' = dlookup m k' := by
  induction m with
  | nil =>
    have hne : ¬ k = k' := fun he => h he.symm
    simp [dput, dlookup, hne]
  | cons p rest ih =>
    obtain ⟨k₁, w⟩ := p
    by_cases hk : k₁ = k
    · subst hk
      have hne : ¬ k₁ = k' := fun he => h he.symm
      simp [dput, dlookup, hne]
    · by_cases hk' : k₁ = k'
      · subst hk'
        simp [dput, hk, dlookup]
      · simp [dput, hk, dlookup, hk', ih]

theorem dlookup_dsetdefault_some {m : List (String × String)} {k v : String}
    (k' v' : String) (h : dlookup m k = some v) :
    dlookup (dsetdefault m k' v') k = some v := by
  unfold dsetdefault
  split
  · exact h
  · exact dlookup_append_some _ h

theorem dlookup_dsetdefault_self_none {m : List (String × String)} {k : String}
    (v : String) (h : dlookup m k = none) :
    dlookup (dsetdefault m k v) k = some v := by
  unfold dsetdefault
  split
  case isTrue hs => rw [h] at hs; simp at hs
  case isFalse =>
    rw [dlookup_append_none _ h]
    simp [dlookup]

theorem dlookup_dsetdefault_ne {k' k : String} (m : List (String × String)) (v : String)
    (h : k' ≠ k) : dlookup (dsetdefault m k v) k' = dlookup m k' := by
  unfold dsetdefault
  split
  · rfl
  · cases hx : dlookup m k' with
    | some w => exact dlookup_append_some _ hx
    | none =>
      rw [dlookup_append_none _ hx]
      have hne : ¬ k = k' := fun he => h he.symm
      simp [dlookup, hne]

theorem dlookup_eq_none_of_not_mem {m : List (String × String)} {k : String}
    (h : k ∉ m.map Prod.fst) : dlookup m k = none := by
  induction m with
  | nil => rfl
  | cons p rest ih =>
    obtain ⟨k', w⟩ := p
    simp only [List.map_cons, List.mem_cons, not_or] at h
    have hne : ¬ k' = k := fun he => h.1 he.symm
    show (if k' = k then some w else dlookup rest k) = none
    rw [if_neg hne]
    exact ih h.2

theorem not_mem_of_dlookup_eq_none {m : List (String × String)} {k : String}
    (h : dlookup m k = none) : k ∉ m.map Prod.fst := by
  induction m with
  | nil => simp
  | cons p rest ih =>
    obtain ⟨k', w⟩ := p
    by_cases hk : k' = k
    · simp [dlookup, hk] at h
    · simp only [dlookup, hk, if_false] at h
      simp only [List.map_cons, List.mem_cons, not_or]
      exact ⟨fun he => hk he.symm, ih h⟩

theorem mem_keys_dput {m : List (String × String)} {k v a : String}
    (h : a ∈ (dput m k v).map Prod.fst) : a ∈ m.map Prod.fst ∨ a = k := by
  induction m with
  | nil =>
    simp only [dput, List.map_cons, List.map_nil, List.mem_singleton] at h
    exact Or.inr h
  | cons p rest ih =>
    obtain ⟨k₁, w⟩ := p
    by_cases hk : k₁ = k
    · simp only [dput, hk, if_true, List.map_cons, List.mem_cons] at h
      rcases h with h | h
      · exact Or.inr h
      · exact Or.inl (by simp [h])
    · simp only [dput, hk, if_false, List.map_cons, List.mem_cons] at h
      rcases h with h | h
      · exact Or.inl (by simp [h])
      · rcases ih h with h' | h'
        · exact Or.inl (by simp [h'])
        · exact Or.inr h'

theorem NodupKeys_dput {m : List (String × String)} (k v : String)
    (h : NodupKeys m) : NodupKeys (dput m k v) := by
  induction m with
  | nil => simp [dput, NodupKeys]
  | cons p rest ih =>
    obtain ⟨k₁, w⟩ := p
    unfold NodupKeys at h ⊢
    simp only [List.map_cons, List.nodup_cons] at h
    by_cases hk : k₁ = k
    · subst hk
      rw [dput, if_pos rfl]
      simp only [List.map_cons, List.nodup_cons]
      exact h
    · rw [dput, if_neg hk]
      simp only [List.map_cons, List.nodup_cons]
      refine ⟨?_, ih h.2⟩
      intro hmem
      rcases mem_keys_dput hmem with h' | h'
      · exact h.1 h'
      · exact hk h'

theorem NodupKeys_dsetdefault {m : List (String × String)} (k v : String)
    (h : NodupKeys m) : NodupKeys (dsetdefault m k v) := by
  unfold dsetdefault
  split
  case isTrue => exact h
  case isFalse hs =>
    have hn : dlookup m k = none := by
      cases hx : dlookup m k
      · rfl
      · rw [hx] at hs; simp at hs
    unfold NodupKeys
    rw [List.map_append, List.nodup_append]
    refine ⟨h, by simp, ?_⟩
    intro a ha hb
    simp only [List.map_cons, List.map_nil, List.mem_singleton] at hb
    subst hb
    exact not_mem_of_dlookup_eq_none hn ha

theorem dictUpdate_lookup_notin {u : List (String × String)} {k : String}
    (h : dlookup u k = none) :
    ∀ m, dlookup (dictUpdate m u) k = dlookup m k := by
  induction u with
  | nil => intro m; rfl
  | cons p rest ih =>
    intro m
    obtain ⟨k₁, v₁⟩ := p
    by_cases hk : k₁ = k
    · simp [dlookup, hk] at h
    · simp only [dlookup, hk, if_false] at h
      show dlookup (dictUpdate (dput m k₁ v₁) rest) k = dlookup m k
      rw [ih h]
      exact dlookup_dput_ne m v₁ (fun he => hk he.symm)

theorem dictUpdate_lookup_in {u : List (String × String)} {k v : String}
    (hnd : NodupKeys u) (h : dlookup u k = some v) :
    ∀ m, dlookup (dictUpdate m u) k = some v := by
  induction u with
  | nil => simp [dlookup] at h
  | cons p rest ih =>
    intro m
    obtain ⟨k₁, v₁⟩ := p
    unfold NodupKeys at hnd
    simp only [List.map_cons, List.nodup_cons] at hnd
    by_cases hk : k₁ = k
    · subst hk
      have hv : v₁ = v := by
        have h' : (if k₁ = k₁ then some v₁ else dlookup rest k₁) = some v := h
        rw [if_pos rfl] at h'
        exact Option.some.inj h'
      subst hv
      have hrest : dlookup rest k₁ = none := dlookup_eq_none_of_not_mem hnd.1
      show dlookup (dictUpdate (dput m k₁ v₁) rest) k₁ = some v₁
      rw [dictUpdate_lookup_notin hrest]
      exact dlookup_dput_self m k₁ v₁
    · have h' : (if k₁ = k then some v₁ else dlookup rest k) = some v := h
      rw [if_neg hk] at h'
      exact ih hnd.2 h' _

theorem NodupKeys_filter {m : List (String × String)} (p : String × String → Bool)
    (h : NodupKeys m) : NodupKeys (m.filter p) := by
  unfold NodupKeys at h ⊢
  exact ((List.filter_sublist m).map Prod.fst).nodup h

theorem dlookup_filter_none {m : List (String × String)} {k : String}
    (p : String × String → Bool) (h : dlookup m k = none) :
    dlookup (m.filter p) k = none := by
  induction m with
  | nil => rfl
  | cons q rest ih =>
    obtain ⟨k', w⟩ := q
    by_cases hk : k' = k
    · simp [dlookup, hk] at h
    · simp only [dlookup, hk, if_false] at h
      by_cases hp : p (k', w)
      · simp only [List.filter_cons_of_pos hp, dlookup, hk, if_false]
        exact ih h
      · rw [List.filter_cons_of_neg (by simpa using hp)]
        exact ih h

theorem parse_key_value_aux_nodup :
    ∀ (items : List String) (acc pairs : List (String × String)), NodupKeys acc →
      items.foldlM
        (fun pairs item =>
          if inStr "=" item = false then
            Except.error ("Invalid --set value " ++ item ++ ". Expected KEY=VALUE.")
          else
            let parts := splitFirstAt '=' item.data
            let key := pyStrip (String.mk parts.1)
            let value := String.mk parts.2
            if key = "" then
              Except.error ("Invalid --set value " ++ item ++ ". Key is empty.")
            else
              Except.ok (dput pairs key value))
        acc = Except.ok pairs →
      NodupKeys pairs := by
  intro items
  induction items with
  | nil =>
    intro acc pairs hacc h
    have h' : Except.ok acc = Except.ok pairs := h
    exact (Except.ok.inj h') ▸ hacc
  | cons item rest ih =>
    intro acc pairs hacc h
    simp only [List.foldlM_cons] at h
    by_cases h1 : inStr "=" item = false
    · rw [if_pos h1] at h
      exact Except.noConfusion h
    · rw [if_neg h1] at h
      by_cases h2 : pyStrip (String.mk (splitFirstAt '=' item.data).1) = ""
      · rw [if_pos h2] at h
        exact Except.noConfusion h
      · rw [if_neg h2] at h
        exact ih _ _ (NodupKeys_dput _ _ hacc) h

theorem parse_key_value_nodup {items : List String} {pairs : List (String × String)}
    (h : parse_key_value items = Except.ok pairs) : NodupKeys pairs := by
  exact parse_key_value_aux_nodup items [] pairs (by simp [NodupKeys]) h

theorem matchAt_some {l tok rest : List Char} (h : matchAt l = some (tok, rest)) :
    l = '\x7b' :: '\x7b' :: (tok ++ '\x7d' :: '\x7d' :: rest) ∧ tok ≠ [] ∧
      ∀ c ∈ tok, isTokenChar c = true := by
  unfold matchAt at h
  split at h
  next rest0 =>
    dsimp only at h
    split at h
    next rest' hdrop =>
      split at h
      next => exact absurd h (by simp)
      next htok =>
        simp only [Option.some.injEq, Prod.mk.injEq] at h
        obtain ⟨htok', hrest⟩ := h
        subst htok'; subst hrest
        refine ⟨?_, htok, ?_⟩
        · have hsplit := List.takeWhile_append_dropWhile (p := isTokenChar) (l := rest0)
          rw [hdrop] at hsplit
          exact congrArg (fun x => '\x7b' :: '\x7b' :: x) hsplit.symm
        · intro c hc
          exact List.mem_takeWhile_imp hc
    next => exact absurd h (by simp)
  next => exact absurd h (by simp)

theorem matchAt_length {l tok rest : List Char} (h : matchAt l = some (tok, rest)) :
    rest.length < l.length := by
  obtain ⟨hl, htok, -⟩ := matchAt_some h
  subst hl
  simp [List.length_append]
  omega

theorem findTokensF_succ (fuel : Nat) (l : List Char) :
    findTokensF (fuel + 1) l =
      match matchAt l with
      | some (tok, rest) => tok :: findTokensF fuel rest
      | none =>
        match l with
        | [] => []
        | _ :: rest => findTokensF fuel rest := rfl

theorem findTokensF_congr :
    ∀ (fuel fuel' : Nat) (l : List Char), l.length ≤ fuel → l.length ≤ fuel' →
      findTokensF fuel l = findTokensF fuel' l := by
  intro fuel
  induction fuel with
  | zero =>
    intro fuel' l hl hl'
    have : l = [] := List.eq_nil_of_length_eq_zero (Nat.le_zero.mp hl)
    subst this
    cases fuel' with
    | zero => rfl
    | succ n => simp [findTokensF, matchAt]
  | succ fuel ih =>
    intro fuel' l hl hl'
    cases fuel' with
    | zero =>
      have : l = [] := List.eq_nil_of_length_eq_zero (Nat.le_zero.mp hl')
      subst this
      simp [findTokensF, matchAt]
    | succ fuel2 =>
      rw [findTokensF_succ, findTokensF_succ]
      cases hm : matchAt l with
      | some pr =>
        obtain ⟨tok, rest⟩ := pr
        have hrest := matchAt_length hm
        exact congrArg (tok :: ·) (ih fuel2 rest (by omega) (by omega))
      | none =>
        cases l with
        | nil => rfl
        | cons c rest =>
          simp only [List.length_cons] at hl hl'
          simp only [hm]
          exact ih fuel2 rest (by omega) (by omega)

theorem findTokens_nil : findTokens [] = [] := rfl

theorem findTokens_some {l tok rest : List Char} (h : matchAt l = some (tok, rest)) :
    findTokens l = tok :: findTokens rest := by
  obtain ⟨hl, -, -⟩ := matchAt_some h
  have hlen : l.length = (l.length - 1) + 1 := by
    rw [hl]; simp
  unfold findTokens
  rw [hlen, findTokensF_succ, h]
  have hr := matchAt_length h
  exact congrArg (tok :: ·) (findTokensF_congr _ _ rest (by omega) (by omega))

theorem findTokens_none_cons {c : Char} {rest : List Char}
    (h : matchAt (c :: rest) = none) : findTokens (c :: rest) = findTokens rest := by
  unfold findTokens
  rw [List.length_cons, findTokensF_succ, h]

theorem findTokens_sound :
    ∀ (n : Nat) (l : List Char), l.length ≤ n → ∀ tok ∈ findTokens l,
      tok ≠ [] ∧ (∀ c ∈ tok, isTokenChar c = true) ∧
        ∃ a b, l = a ++ '\x7b' :: '\x7b' :: (tok ++ '\x7d' :: '\x7d' :: b) := by
  intro n
  induction n with
  | zero =>
    intro l hl tok htok
    have : l = [] := List.eq_nil_of_length_eq_zero (Nat.le_zero.mp hl)
    subst this
    rw [findTokens_nil] at htok
    exact absurd htok (List.not_mem_nil tok)
  | succ n ih =>
    intro l hl tok htok
    cases hm : matchAt l with
    | some pr =>
      obtain ⟨tok0, rest⟩ := pr
      rw [findTokens_some hm] at htok
      obtain ⟨hx, hne0, hcls0⟩ := matchAt_some hm
      rcases List.mem_cons.mp htok with heq | htok'
      · subst heq
        exact ⟨hne0, hcls0, [], rest, hx⟩
      · have hrest := matchAt_length hm
        obtain ⟨hne, hcls, a, b, hab⟩ := ih rest (by omega) tok htok'
        refine ⟨hne, hcls, ('\x7b' :: '\x7b' :: (tok0 ++ ['\x7d', '\x7d'])) ++ a, b, ?_⟩
        rw [hx, hab]
        simp [List.append_assoc]
    | none =>
      cases l with
      | nil =>
        rw [findTokens_nil] at htok
        exact absurd htok (List.not_mem_nil tok)
      | cons c rest =>
        rw [findTokens_none_cons hm] at htok
        simp only [List.length_cons] at hl
        obtain ⟨hne, hcls, a, b, hab⟩ := ih rest (by omega) tok htok
        exact ⟨hne, hcls, c :: a, b, by rw [hab]; rfl⟩

theorem takeWhile_all_append {p : Char → Bool} {K : List Char} {y : Char} (ys : List Char)
    (hK : ∀ c ∈ K, p c = true) (hy : p y = false) :
    (K ++ y :: ys).takeWhile p = K ∧ (K ++ y :: ys).dropWhile p = y :: ys := by
  induction K with
  | nil =>
    constructor
    · simp [List.takeWhile, hy]
    · simp [List.dropWhile, hy]
  | cons c cs ihK =>
    have hc : p c = true := hK c (List.mem_cons_self c cs)
    have hcs : ∀ x ∈ cs, p x = true := fun x hx => hK x (List.mem_cons_of_mem c hx)
    obtain ⟨ht, hd⟩ := ihK hcs
    constructor
    · simp only [List.cons_append, List.takeWhile_cons, hc, if_true]
      rw [ht]
    · simp only [List.cons_append, List.dropWhile_cons, hc, if_true]
      exact hd

theorem matchAt_head_occurrence {K b : List Char} (hne : K ≠ [])
    (hcls : ∀ c ∈ K, isTokenChar c = true) :
    matchAt ('\x7b' :: '\x7b' :: (K ++ '\x7d' :: '\x7d' :: b)) = some (K, b) := by
  have hbrace : isTokenChar '\x7d' = false := by decide
  obtain ⟨ht, hd⟩ :=
    takeWhile_all_append (p := isTokenChar) ('\x7d' :: b) hcls hbrace
  show (let tok := (K ++ '\x7d' :: '\x7d' :: b).takeWhile isTokenChar
        match (K ++ '\x7d' :: '\x7d' :: b).dropWhile isTokenChar with
        | '\x7d' :: '\x7d' :: rest' => if tok = [] then none else some (tok, rest')
        | _ => none) = some (K, b)
  rw [ht, hd]
  simp [hne]

theorem findTokens_complete :
    ∀ (n : Nat) (l : List Char), l.length ≤ n → findTokens l = [] →
      ∀ (K a b : List Char), K ≠ [] → (∀ c ∈ K, isTokenChar c = true) →
        l ≠ a ++ '\x7b' :: '\x7b' :: (K ++ '\x7d' :: '\x7d' :: b) := by
  intro n
  induction n with
  | zero =>
    intro l hl _ K a b hne _ hcontra
    have : l = [] := List.eq_nil_of_length_eq_zero (Nat.le_zero.mp hl)
    subst this
    exact absurd hcontra.symm (by simp)
  | succ n ih =>
    intro l hl hempty K a b hne hcls hcontra
    cases hm : matchAt l with
    | some pr =>
      obtain ⟨tok0, rest⟩ := pr
      rw [findTokens_some hm] at hempty
      exact List.cons_ne_nil _ _ hempty
    | none =>
      cases a with
      | nil =>
        rw [hcontra] at hm
        rw [List.nil_append] at hm
        rw [matchAt_head_occurrence hne hcls] at hm
        exact Option.noConfusion hm
      | cons a0 arest =>
        cases l with
        | nil => exact absurd hcontra.symm (by simp)
        | cons c rest =>
          rw [findTokens_none_cons hm] at hempty
          simp only [List.length_cons] at hl
          rw [List.cons_append] at hcontra
          have hc := List.cons.inj hcontra
          exact ih rest (by omega) hempty K arest b hne hcls hc.2

theorem leadsWith_decomp : ∀ {pat l : List Char}, leadsWith pat l = true →
    ∃ suf, l = pat ++ suf := by
  intro pat
  induction pat with
  | nil => intro l _; exact ⟨l, rfl⟩
  | cons p ps ih =>
    intro l h
    cases l with
    | nil => simp [leadsWith] at h
    | cons c cs =>
      simp only [leadsWith, Bool.and_eq_true, decide_eq_true_eq] at h
      obtain ⟨hpc, hlw⟩ := h
      obtain ⟨suf, hsuf⟩ := ih hlw
      subst hpc
      exact ⟨suf, by rw [hsuf]; rfl⟩

theorem pyReplaceF_no_occ : ∀ (fuel : Nat) (pat rep s : List Char), s.length ≤ fuel →
    (∀ a b, s ≠ a ++ pat ++ b) → pyReplaceF fuel pat rep s = s := by
  intro fuel
  induction fuel with
  | zero => intro pat rep s hl hocc; rfl
  | succ fuel ih =>
    intro pat rep s hl hocc
    cases s with
    | nil => rfl
    | cons c cs =>
      show (if pat ≠ [] ∧ leadsWith pat (c :: cs) = true then
              rep ++ pyReplaceF fuel pat rep ((c :: cs).drop pat.length)
            else c :: pyReplaceF fuel pat rep cs) = c :: cs
      by_cases hcond : pat ≠ [] ∧ leadsWith pat (c :: cs) = true
      · obtain ⟨suf, hsuf⟩ := leadsWith_decomp hcond.2
        exact absurd hsuf (by have hn := hocc [] suf; simpa using hn)
      · rw [if_neg hcond]
        simp only [List.length_cons] at hl
        exact congrArg (c :: ·)
          (ih pat rep cs (by omega) (fun a b heq => hocc (c :: a) b (by rw [heq]; rfl)))

theorem pyReplace_no_occ {pat s : List Char} (rep : List Char)
    (hocc : ∀ a b, s ≠ a ++ pat ++ b) : pyReplace pat rep s = s :=
  pyReplaceF_no_occ s.length pat rep s (le_refl _) hocc

theorem data_eq_nil {s : String} (h : s.data = []) : s = "" := by
  cases s with
  | mk d =>
    have hd : d = [] := h
    rw [hd]

theorem unresolved_tokens_nil_findTokens {s : String} (h : unresolved_tokens s = []) :
    findTokens s.data = [] := by
  unfold unresolved_tokens at h
  have hperm := List.perm_insertionSort (α := String) (· ≤ ·)
    (((findTokens s.data).map (fun l => String.mk l)).dedup)
  rw [h] at hperm
  have hdedup := hperm.symm.eq_nil
  rw [List.dedup_eq_nil] at hdedup
  exact List.map_eq_nil.mp hdedup

theorem render_no_op_of_no_occ {r : List (String × String)} {text : String}
    (h : ∀ kv ∈ r, ∀ a b,
      text.data ≠ a ++ ("\x7b\x7b" ++ kv.1 ++ "\x7d\x7d").data ++ b) :
    render r text = text := by
  induction r with
  | nil => rfl
  | cons kv r' ih =>
    show render r'
      (String.mk (pyReplace ("\x7b\x7b" ++ kv.1 ++ "\x7d\x7d").data kv.2.data text.data)) = text
    rw [pyReplace_no_occ kv.2.data (h kv (List.mem_cons_self kv r'))]
    show render r' text = text
    exact ih (fun kv' hkv' => h kv' (List.mem_cons_of_mem kv hkv'))

theorem digits1_iff {l : List Char} :
    digits1 l = true ↔ l ≠ [] ∧ ∀ c ∈ l, isAsciiDigit c = true := by
  cases l with
  | nil => simp [digits1]
  | cons c rest =>
    simp [digits1, List.all_eq_true]

theorem ticketTail_iff : ∀ l : List Char,
    ticketTail l = true ↔
      ∃ cs d, l = cs ++ '-' :: d ∧ (∀ c ∈ cs, isUpperDigit c = true) ∧
        d ≠ [] ∧ (∀ c ∈ d, isAsciiDigit c = true) := by
  intro l
  induction l with
  | nil =>
    constructor
    · intro h; exact absurd h (by simp [ticketTail])
    · rintro ⟨cs, d, hl, -⟩
      exact absurd hl.symm (by simp)
  | cons c rest ih =>
    show (if isUpperDigit c then ticketTail rest else (c = '-') && digits1 rest) = true ↔ _
    by_cases hc : isUpperDigit c = true
    · rw [if_pos hc, ih]
      constructor
      · rintro ⟨cs, d, hl, hcs, hd, hds⟩
        refine ⟨c :: cs, d, by rw [hl]; rfl, ?_, hd, hds⟩
        intro x hx
        rcases List.mem_cons.mp hx with rfl | hx'
        · exact hc
        · exact hcs x hx'
      · rintro ⟨cs, d, hl, hcs, hd, hds⟩
        cases cs with
        | nil =>
          simp only [List.nil_append, List.cons.injEq] at hl
          rw [hl.1] at hc
          exact absurd hc (by decide)
        | cons c0 cs' =>
          simp only [List.cons_append, List.cons.injEq] at hl
          exact ⟨cs', d, hl.2, fun x hx => hcs x (List.mem_cons_of_mem c0 hx), hd, hds⟩
    · rw [if_neg hc]
      constructor
      · intro h
        simp only [Bool.and_eq_true, decide_eq_true_eq] at h
        obtain ⟨hdash, hdig⟩ := h
        obtain ⟨hd, hds⟩ := digits1_iff.mp hdig
        exact ⟨[], rest, by simp [hdash], by simp, hd, hds⟩
      · rintro ⟨cs, d, hl, hcs, hd, hds⟩
        cases cs with
        | nil =>
          simp only [List.nil_append, List.cons.injEq] at hl
          simp only [Bool.and_eq_true, decide_eq_true_eq]
          refine ⟨hl.1, digits1_iff.mpr ⟨?_, ?_⟩⟩
          · rw [hl.2]; exact hd
          · rw [hl.2]; exact hds
        | cons c0 cs' =>
          simp only [List.cons_append, List.cons.injEq] at hl
          exact absurd (hl.1 ▸ hcs c0 (List.mem_cons_self c0 cs')) hc

theorem ticket_fullmatch_iff (s : String) :
    ticket_fullmatch s = true ↔
      ∃ (c1 c2 : Char) (cs d : List Char),
        s.data = c1 :: c2 :: (cs ++ '-' :: d) ∧ isUpperAlpha c1 = true ∧
          isUpperDigit c2 = true ∧ (∀ c ∈ cs, isUpperDigit c = true) ∧
          d ≠ [] ∧ (∀ c ∈ d, isAsciiDigit c = true) := by
  unfold ticket_fullmatch
  cases hdata : s.data with
  | nil =>
    constructor
    · intro h; exact absurd h (by simp)
    · rintro ⟨c1, c2, cs, d, hl, -⟩
      exact absurd hl (by simp)
  | cons c1 rest1 =>
    cases rest1 with
    | nil =>
      constructor
      · intro h; exact absurd h (by simp)
      · rintro ⟨c1', c2', cs, d, hl, -⟩
        exact absurd hl (by simp)
    | cons c2 rest =>
      simp only [Bool.and_eq_true]
      constructor
      · rintro ⟨⟨h1, h2⟩, htail⟩
        obtain ⟨cs, d, hrest, hcs, hd, hds⟩ := (ticketTail_iff rest).mp htail
        exact ⟨c1, c2, cs, d, by rw [hrest], h1, h2, hcs, hd, hds⟩
      · rintro ⟨c1', c2', cs, d, hl, h1, h2, hcs, hd, hds⟩
        simp only [List.cons.injEq] at hl
        obtain ⟨rfl, rfl, hrest⟩ := hl
        exact ⟨⟨h1, h2⟩, (ticketTail_iff rest).mpr ⟨cs, d, hrest, hcs, hd, hds⟩⟩

theorem placeholder_plan_aux (r : List (String × String)) :
    ∀ (tokens : List String) (acc : List String) (t : String),
      (t ∈ tokens.foldl
        (fun missing token =>
          if pyStrip ((dlookup r token).getD "") ≠ "" then missing else missing ++ [token]) acc) ↔
      (t ∈ acc ∨ (t ∈ tokens ∧ pyStrip ((dlookup r t).getD "") = "")) := by
  intro tokens
  induction tokens with
  | nil =>
    intro acc t
    simp
  | cons tok rest ih =>
    intro acc t
    rw [List.foldl_cons]
    by_cases hv : pyStrip ((dlookup r tok).getD "") ≠ ""
    · rw [if_pos hv, ih]
      constructor
      · rintro (h | ⟨h1, h2⟩)
        · exact Or.inl h
        · exact Or.inr ⟨List.mem_cons_of_mem tok h1, h2⟩
      · rintro (h | ⟨h1, h2⟩)
        · exact Or.inl h
        · rcases List.mem_cons.mp h1 with rfl | h1'
          · exact absurd h2 hv
          · exact Or.inr ⟨h1', h2⟩
    · rw [if_neg hv, ih]
      push_neg at hv
      constructor
      · rintro (h | ⟨h1, h2⟩)
        · rcases List.mem_append.mp h with h' | h'
          · exact Or.inl h'
          · have ht : t = tok := by simpa using h'
            subst ht
            exact Or.inr ⟨List.mem_cons_self _ _, hv⟩
        · exact Or.inr ⟨List.mem_cons_of_mem tok h1, h2⟩
      · rintro (h | ⟨h1, h2⟩)
        · exact Or.inl (List.mem_append.mpr (Or.inl h))
        · rcases List.mem_cons.mp h1 with rfl | h1'
          · exact Or.inl (List.mem_append.mpr (Or.inr (by simp)))
          · exact Or.inr ⟨h1', h2⟩

theorem mem_print_placeholder_plan {tokens : List String} {r : List (String × String)}
    {t : String} :
    t ∈ print_placeholder_plan tokens r ↔
      t ∈ tokens ∧ pyStrip ((dlookup r t).getD "") = "" := by
  unfold print_placeholder_plan
  rw [placeholder_plan_aux]
  simp

theorem infer_ids_plans_lookup_ne {t : TargetDir} {k : String} (h1 : k ≠ "EPIC_ID")
    (m : List (String × String)) :
    dlookup (infer_ids_plans t m) k = dlookup m k := by
  unfold infer_ids_plans
  split
  · split
    · exact dlookup_dput_ne m _ h1
    · rfl
  · rfl

theorem infer_ids_branch_lookup_ne {ps : Patterns} {t : TargetDir} {k : String}
    (h1 : k ≠ "EPIC_ID") (h2 : k ≠ "TRACKER_ID") (m : List (String × String)) :
    dlookup (infer_ids_branch ps t m) k = dlookup m k := by
  unfold infer_ids_branch
  split
  · split
    · rw [dlookup_dsetdefault_ne _ _ h1, dlookup_dsetdefault_ne _ _ h2]
    · rfl
  · rfl

theorem infer_ids_agents_lookup_ne {ps : Patterns} {t : TargetDir} {k : String}
    (h2 : k ≠ "TRACKER_ID") (m : List (String × String)) :
    dlookup (infer_ids_agents ps t m) k = dlookup m k := by
  unfold infer_ids_agents
  split
  · rfl
  · split
    · split
      · split
        · exact dlookup_dput_ne m _ h2
        · rfl
      · rfl
    · rfl

theorem infer_ids_lookup_none {ps : Patterns} {t : TargetDir} {k : String}
    (h1 : k ≠ "EPIC_ID") (h2 : k ≠ "TRACKER_ID") :
    dlookup (infer_ids ps t) k = none := by
  unfold infer_ids
  rw [infer_ids_agents_lookup_ne h2, infer_ids_branch_lookup_ne h1 h2,
    infer_ids_plans_lookup_ne h1]
  rfl

theorem NodupKeys_infer_ids (ps : Patterns) (t : TargetDir) :
    NodupKeys (infer_ids ps t) := by
  have hplans : NodupKeys (infer_ids_plans t []) := by
    unfold infer_ids_plans
    split
    · split
      · exact NodupKeys_dput _ _ (by simp [NodupKeys])
      · simp [NodupKeys]
    · simp [NodupKeys]
  have hbranch : NodupKeys (infer_ids_branch ps t (infer_ids_plans t [])) := by
    unfold infer_ids_branch
    split
    · split
      · exact NodupKeys_dsetdefault _ _ (NodupKeys_dsetdefault _ _ hplans)
      · exact hplans
    · exact hplans
  unfold infer_ids infer_ids_agents
  split
  · exact hbranch
  · split
    · split
      · split
        · exact NodupKeys_dput _ _ hbranch
        · exact hbranch
      · exact hbranch
    · exact hbranch

theorem dsetdefaultIfTruthy_some {m : List (String × String)} {k v : String}
    (key : String) (o : Option String) (h : dlookup m k = some v) :
    dlookup (dsetdefaultIfTruthy m key o) k = some v := by
  unfold dsetdefaultIfTruthy
  split
  · split
    · exact dlookup_dsetdefault_some _ _ h
    · exact h
  · exact h

theorem infer_replacements_existing_some {ps : Patterns} {t : TargetDir}
    {lang : Language} {wf : Workflow} {k v : String}
    (hk1 : k ≠ "EPIC_ID") (hk2 : k ≠ "TRACKER_ID")
    (h : dlookup (infer_from_existing_agents ps t) k = some v) :
    dlookup (infer_replacements ps t lang wf) k = some v := by
  simp only [infer_replacements]
  rw [dictUpdate_lookup_notin (dlookup_filter_none _ (infer_ids_lookup_none hk1 hk2))]
  exact dsetdefaultIfTruthy_some _ _
    (dlookup_dsetdefault_some _ _
      (dlookup_dsetdefault_some _ _
        (dsetdefaultIfTruthy_some _ _ h)))

theorem infer_replacements_ids_some {ps : Patterns} {t : TargetDir}
    {lang : Language} {wf : Workflow} {k v : String}
    (h : dlookup ((infer_ids ps t).filter (fun p => p.2 ≠ "")) k = some v) :
    dlookup (infer_replacements ps t lang wf) k = some v := by
  simp only [infer_replacements]
  exact dictUpdate_lookup_in (NodupKeys_filter _ (NodupKeys_infer_ids ps t)) h _

theorem appNameFromPackageJson_malformed {ps : Patterns} {s : String}
    (h : ps.json_name s = none) :
    appNameFromPackageJson ps (.text s) = appNameFromPackageJson ps .absent := by
  show (if s ≠ "" then
          match ps.json_name s with
          | some name => if pyStrip name ≠ "" then some (pyStrip name) else none
          | none => none
        else none) = none
  by_cases hs : s ≠ ""
  · rw [if_pos hs, h]
  · rw [if_neg hs]

theorem appNameFromPyproject_malformed {ps : Patterns} {s : String}
    (h : ps.toml_project_name s = none) :
    appNameFromPyproject ps (.text s) = appNameFromPyproject ps .absent := by
  show (if s ≠ "" then
          match ps.toml_project_name s with
          | some name => if pyStrip name ≠ "" then some (pyStrip name) else none
          | none => none
        else none) = none
  by_cases hs : s ≠ ""
  · rw [if_pos hs, h]
  · rw [if_neg hs]

theorem appNameFromCargo_malformed {ps : Patterns} {s : String}
    (h : ps.toml_package_name s = none) :
    appNameFromCargo ps (.text s) = appNameFromCargo ps .absent := by
  show (if s ≠ "" then
          match ps.toml_package_name s with
          | some name => if pyStrip name ≠ "" then some (pyStrip name) else none
          | none => none
        else none) = none
  by_cases hs : s ≠ ""
  · rw [if_pos hs, h]
  · rw [if_neg hs]

theorem testCmdFromPackageJson_malformed {ps : Patterns} {s : String}
    (h : ps.json_test_script s = false) :
    testCmdFromPackageJson ps (.text s) = testCmdFromPackageJson ps .absent := by
  show (if s ≠ "" ∧ ps.json_test_script s then some "npm test" else none) = none
  rw [if_neg]
  rintro ⟨-, h2⟩
  rw [h] at h2
  exact Bool.noConfusion h2

/-- C2 (counterexample): the claim says the ticket pattern accepts a
single uppercase letter, a hyphen and digits, but `TICKET_RE` =
`\b([A-Z][A-Z0-9]+-\d+)\b` requires at least two characters before the
hyphen: `A-1` satisfies the claim's description (`spec_ticket`) yet is
rejected by the source pattern. -/
theorem C2_counterexample :
    ticket_fullmatch "A-1" = false ∧ spec_ticket "A-1" = true := by
  constructor
  · rfl
  · rfl

/-- C2 (amended): `TICKET_RE.fullmatch` accepts exactly the strings made
of an uppercase letter, followed by at least one more uppercase letter or
digit, then a hyphen, then one or more digits — i.e. the prefix before
the hyphen has length at least two. -/
theorem C2_ticket_pattern (s : String) :
    ticket_fullmatch s = true ↔
      ∃ (c1 c2 : Char) (cs d : List Char),
        s.data = c1 :: c2 :: (cs ++ '-' :: d) ∧ isUpperAlpha c1 = true ∧
          isUpperDigit c2 = true ∧ (∀ c ∈ cs, isUpperDigit c = true) ∧
          d ≠ [] ∧ (∀ c ∈ d, isAsciiDigit c = true) :=
  ticket_fullmatch_iff s

/-- C4: the key/value pairs parsed from `--set` override any inferred
value for the same key in the final replacement map, whatever the
inferred map is (hence regardless of which extractors contributed and in
what order). -/
theorem C4_explicit_set_wins (items : List String) (pairs inferred : List (String × String))
    (k v : String) (hparse : parse_key_value items = Except.ok pairs)
    (hk : dlookup pairs k = some v) :
    dlookup (dictUpdate inferred pairs) k = some v :=
  dictUpdate_lookup_in (parse_key_value_nodup hparse) hk inferred

theorem C4_witness :
    parse_key_value ["APP_NAME=widget"] = Except.ok [("APP_NAME", "widget")] ∧
    dlookup [("APP_NAME", "widget")] "APP_NAME" = some "widget" ∧
    dlookup (dictUpdate [("APP_NAME", "inferred")] [("APP_NAME", "widget")])
      "APP_NAME" = some "widget" :=
  ⟨by decide, by decide,
    C4_explicit_set_wins ["APP_NAME=widget"] [("APP_NAME", "widget")]
      [("APP_NAME", "inferred")] "APP_NAME" "widget" (by decide) (by decide)⟩

/-- C5: the token scanner returns a duplicate-free list, sorted in the
code-point order Python's `sorted` uses, of names drawn from the
character class `[A-Z0-9_]+`, each of which occurs in the input wrapped
in double braces; a name whose braced form does not occur never appears. -/
theorem C5_token_scanner (s : String) :
    (unresolved_tokens s).Nodup ∧
    List.Sorted (· ≤ ·) (unresolved_tokens s) ∧
    ∀ tname ∈ unresolved_tokens s,
      tname ≠ "" ∧ (∀ c ∈ tname.data, isTokenChar c = true) ∧
        ∃ a b, s.data = a ++ '\x7b' :: '\x7b' :: (tname.data ++ '\x7d' :: '\x7d' :: b) := by
  unfold unresolved_tokens
  refine ⟨?_, ?_, ?_⟩
  · exact (List.perm_insertionSort _ _).symm.nodup (List.nodup_dedup _)
  · exact List.sorted_insertionSort _ _
  · intro tname htname
    have h1 : tname ∈ ((findTokens s.data).map (fun l => String.mk l)).dedup :=
      (List.perm_insertionSort _ _).mem_iff.mp htname
    rw [List.mem_dedup] at h1
    obtain ⟨l, hl, rfl⟩ := List.mem_map.mp h1
    obtain ⟨hne, hcls, a, b, hab⟩ := findTokens_sound s.data.length s.data (le_refl _) l hl
    refine ⟨?_, hcls, a, b, hab⟩
    intro hcontra
    exact hne (congrArg String.data hcontra)

theorem C5_witness :
    "A" ∈ unresolved_tokens "x \x7b\x7bA\x7d\x7d y \x7b\x7bA\x7d\x7d" ∧
    ("A" ≠ "" ∧ (∀ c ∈ ("A" : String).data, isTokenChar c = true) ∧
      ∃ a b, ("x \x7b\x7bA\x7d\x7d y \x7b\x7bA\x7d\x7d" : String).data =
        a ++ '\x7b' :: '\x7b' :: (("A" : String).data ++ '\x7d' :: '\x7d' :: b)) :=
  ⟨by decide, (C5_token_scanner "x \x7b\x7bA\x7d\x7d y \x7b\x7bA\x7d\x7d").2.2 "A" (by decide)⟩

/-- C8: substituting a replacement map whose keys are well-formed token
names (the data model's Tokens, `[A-Z0-9_]+`) into a text with no
remaining token is a no-op: rendering already-rendered text does not
change it. -/
theorem C8_render_idempotent (r : List (String × String)) (text : String)
    (hkeys : ∀ kv ∈ r, kv.1 ≠ "" ∧ ∀ c ∈ kv.1.data, isTokenChar c = true)
    (hres : unresolved_tokens text = []) : render r text = text := by
  apply render_no_op_of_no_occ
  intro kv hkv a b hcontra
  have hft := unresolved_tokens_nil_findTokens hres
  obtain ⟨hne, hcls⟩ := hkeys kv hkv
  have hKne : kv.1.data ≠ [] := fun hd => hne (data_eq_nil hd)
  refine findTokens_complete text.data.length text.data (le_refl _) hft
    kv.1.data a b hKne hcls ?_
  rw [hcontra]
  have hdata : ("\x7b\x7b" ++ kv.1 ++ "\x7d\x7d").data =
      '\x7b' :: '\x7b' :: (kv.1.data ++ ['\x7d', '\x7d']) := by
    rw [String.data_append, String.data_append]
    rfl
  rw [hdata]
  simp [List.append_assoc]

theorem C8_witness :
    (∀ kv ∈ [("APP_NAME", "x")], Prod.fst kv ≠ "" ∧
      ∀ c ∈ (Prod.fst kv).data, isTokenChar c = true) ∧
    unresolved_tokens "done" = [] ∧
    render [("APP_NAME", "x")] "done" = "done" :=
  ⟨by decide, by decide, C8_render_idempotent [("APP_NAME", "x")] "done" (by decide) (by decide)⟩

/-- C9: the fallible reads and manifest parses never escape an extractor:
a missing file, a directory entry, or a read/decode error reads as
`None`; a malformed `package.json` / `pyproject.toml` / `Cargo.toml`
(its lookup oracle yielding nothing) makes the app-name and test-command
extractors behave exactly as if the artifact were absent, as does an
unreadable prose artifact. -/
theorem C9_extractors_total (ps : Patterns) (t : TargetDir) (lang : Language) (s : String) :
    (read_text_if_exists FileState.absent = none ∧
     read_text_if_exists FileState.dirEntry = none ∧
     read_text_if_exists FileState.unreadable = none) ∧
    (infer_from_existing_agents ps { t with agents_md := FileState.unreadable } =
      infer_from_existing_agents ps { t with agents_md := FileState.absent }) ∧
    (ps.json_name s = none →
      infer_app_name ps { t with package_json := FileState.text s } =
        infer_app_name ps { t with package_json := FileState.absent }) ∧
    (ps.toml_project_name s = none →
      infer_app_name ps { t with pyproject_toml := FileState.text s } =
        infer_app_name ps { t with pyproject_toml := FileState.absent }) ∧
    (ps.toml_package_name s = none →
      infer_app_name ps { t with cargo_toml := FileState.text s } =
        infer_app_name ps { t with cargo_toml := FileState.absent }) ∧
    (infer_app_name ps { t with app_md := FileState.unreadable } =
      infer_app_name ps { t with app_md := FileState.absent }) ∧
    (ps.json_test_script s = false →
      infer_test_command ps { t with package_json := FileState.text s } lang =
        infer_test_command ps { t with package_json := FileState.absent } lang) ∧
    (infer_test_command ps { t with makefile := FileState.unreadable } lang =
      infer_test_command ps { t with makefile := FileState.absent } lang) := by
  refine ⟨⟨rfl, rfl, rfl⟩, rfl, ?_, ?_, ?_, rfl, ?_, rfl⟩
  · intro h
    exact congrArg
      (fun y => appNameFromHeading ps t.app_md <|> y <|>
        appNameFromPyproject ps t.pyproject_toml <|> appNameFromCargo ps t.cargo_toml <|>
        appNameFromGoMod ps t.go_mod <|>
        (if t.dir_name ≠ "" then some t.dir_name else none))
      (appNameFromPackageJson_malformed h)
  · intro h
    exact congrArg
      (fun y => appNameFromHeading ps t.app_md <|> appNameFromPackageJson ps t.package_json <|>
        y <|> appNameFromCargo ps t.cargo_toml <|> appNameFromGoMod ps t.go_mod <|>
        (if t.dir_name ≠ "" then some t.dir_name else none))
      (appNameFromPyproject_malformed h)
  · intro h
    exact congrArg
      (fun y => appNameFromHeading ps t.app_md <|> appNameFromPackageJson ps t.package_json <|>
        appNameFromPyproject ps t.pyproject_toml <|> y <|> appNameFromGoMod ps t.go_mod <|>
        (if t.dir_name ≠ "" then some t.dir_name else none))
      (appNameFromCargo_malformed h)
  · intro h
    exact congrArg
      (fun y => testCmdFromAppMd ps t.app_md <|> testCmdFromMakefile ps t.makefile <|> y <|>
        (if fsExists t.go_mod then some "go test ./..." else none) <|>
        (if fsExists t.pyproject_toml || fsExists t.pytest_ini then some "pytest" else none) <|>
        (match lang with
         | .go => some "go test ./..."
         | .python => some "pytest"))
      (testCmdFromPackageJson_malformed h)

theorem C9_witness :
    trivialPatterns.json_name "not json" = none ∧
    infer_app_name trivialPatterns { emptyTarget with package_json := FileState.text "not json" } =
      infer_app_name trivialPatterns { emptyTarget with package_json := FileState.absent } :=
  ⟨rfl, (C9_extractors_total trivialPatterns emptyTarget Language.go "not json").2.2.1 rfl⟩

/-- C10: a token required by the primary template is reported missing by
the placeholder planner exactly when its value in the replacement map,
stripped of surrounding whitespace, is empty or the key is absent; in
particular a key explicitly set to an empty or whitespace-only value is
still missing. -/
theorem C10_planner_blank_is_missing (tokens : List String)
    (r : List (String × String)) (tok : String) :
    tok ∈ print_placeholder_plan tokens r ↔
      tok ∈ tokens ∧ pyStrip ((dlookup r tok).getD "") = "" :=
  mem_print_placeholder_plan

/-- C1 (counterexample): for `APP_NAME` the fixed precedence claimed by
the spec fails.  With an existing `AGENTS.md` naming the app `alpha` and
a `package.json` naming it `beta`, the existing-AGENTS value survives
into the final map (`infer_replacements` uses `setdefault`, so the
manifest value does not override it), while the claim requires the
manifest value `beta` to win. -/
theorem C1_counterexample :
    dlookup (infer_from_existing_agents conflictPatterns conflictTarget) "APP_NAME" =
      some "alpha" ∧
    infer_app_name conflictPatterns conflictTarget = some "beta" ∧
    dlookup (infer_replacements conflictPatterns conflictTarget Language.go Workflow.linear)
      "APP_NAME" = some "alpha" ∧
    some "alpha" ≠ some ("beta" : String) := by
  refine ⟨by decide, by decide, by decide, by decide⟩

/-- C1 (amended): precedence is per key rather than uniform.  Explicit
`--set` values always win; for `EPIC_ID` and `TRACKER_ID` a non-empty
identifier inferred from plans/git/prior-config overrides an
existing-AGENTS value (`update`); for `APP_NAME`, `LANGUAGE_NAME`,
`TRACKER_NAME` and `TEST_COMMAND` the existing-AGENTS value takes
precedence over manifest/git inference (`setdefault`). -/
theorem C1_aggregation_precedence (ps : Patterns) (t : TargetDir) (lang : Language)
    (wf : Workflow) (explicit : List (String × String)) (k v : String) :
    ((k = "APP_NAME" ∨ k = "LANGUAGE_NAME" ∨ k = "TRACKER_NAME" ∨ k = "TEST_COMMAND") →
      dlookup (infer_from_existing_agents ps t) k = some v →
      dlookup (infer_replacements ps t lang wf) k = some v) ∧
    (dlookup ((infer_ids ps t).filter (fun p => p.2 ≠ "")) k = some v →
      dlookup (infer_replacements ps t lang wf) k = some v) ∧
    (NodupKeys explicit → dlookup explicit k = some v →
      dlookup (dictUpdate (infer_replacements ps t lang wf) explicit) k = some v) := by
  refine ⟨?_, ?_, ?_⟩
  · intro hk h
    have hk1 : k ≠ "EPIC_ID" := by rcases hk with rfl | rfl | rfl | rfl <;> decide
    have hk2 : k ≠ "TRACKER_ID" := by rcases hk with rfl | rfl | rfl | rfl <;> decide
    exact infer_replacements_existing_some hk1 hk2 h
  · exact fun h => infer_replacements_ids_some h
  · exact fun hnd h => dictUpdate_lookup_in hnd h _

theorem C1_witness :
    ((("APP_NAME" : String) = "APP_NAME" ∨ ("APP_NAME" : String) = "LANGUAGE_NAME" ∨
       ("APP_NAME" : String) = "TRACKER_NAME" ∨ ("APP_NAME" : String) = "TEST_COMMAND") ∧
      dlookup (infer_from_existing_agents conflictPatterns conflictTarget) "APP_NAME" =
        some "alpha") ∧
    NodupKeys [("K", "V")] ∧ dlookup [("K", "V")] "K" = some "V" ∧
    dlookup (infer_replacements conflictPatterns conflictTarget Language.go Workflow.linear)
      "APP_NAME" = some "alpha" ∧
    dlookup (dictUpdate (infer_replacements trivialPatterns emptyTarget Language.go
      Workflow.linear) [("K", "V")]) "K" = some "V" :=
  ⟨⟨Or.inl rfl, by decide⟩, by unfold NodupKeys; decide, by decide,
    (C1_aggregation_precedence conflictPatterns conflictTarget Language.go Workflow.linear
      [] "APP_NAME" "alpha").1 (Or.inl rfl) (by decide),
    (C1_aggregation_precedence trivialPatterns emptyTarget Language.go Workflow.linear
      [("K", "V")] "K" "V").2.2 (by unfold NodupKeys; decide) (by decide)⟩

/-- C3 (counterexample): the final replacement map can contain an empty
string as a value: `--set APP_NAME=` parses to the pair
`("APP_NAME", "")`, and the explicit update puts that empty value into
the map consumed by the planner and renderer. -/
theorem C3_counterexample :
    parse_key_value ["APP_NAME="] = Except.ok [("APP_NAME", "")] ∧
    dlookup (dictUpdate (infer_replacements trivialPatterns emptyTarget Language.go
      Workflow.linear) [("APP_NAME", "")]) "APP_NAME" = some "" := by
  refine ⟨by decide, by decide⟩

/-- C3 (amended): the final replacement map may contain blank values
(e.g. from `--set KEY=`), but a blank value is never treated as
resolved: every required token whose map value strips to the empty
string is reported missing by the planner. -/
theorem C3_blank_never_resolved (tokens : List String) (r : List (String × String))
    (tok v : String) (hlk : dlookup r tok = some v) (hblank : pyStrip v = "")
    (htok : tok ∈ tokens) : tok ∈ print_placeholder_plan tokens r := by
  refine mem_print_placeholder_plan.mpr ⟨htok, ?_⟩
  rw [hlk]
  exact hblank

theorem C3_witness :
    dlookup [("X", "  ")] "X" = some "  " ∧ pyStrip "  " = "" ∧
    ("X" : String) ∈ ["X"] ∧ "X" ∈ print_placeholder_plan ["X"] [("X", "  ")] :=
  ⟨by decide, by decide, by decide,
    C3_blank_never_resolved ["X"] [("X", "  ")] "X" "  " (by decide) (by decide) (by decide)⟩

/-- C6 (amended): when the primary template still contains a token after
substituting every key of the final replacement map, the run writes zero
files and does not touch `plans/`; it exits with code 1 unless
inference-only mode is set (`--infer-only` previews and exits 0). -/
theorem C6_unresolved_primary_aborts (ps : Patterns) (fetch : String → Except String String)
    (t : TargetDir) (args : Args) (tmpl : String) (explicit : List (String × String))
    (hparse : parse_key_value args.set_items = Except.ok explicit)
    (hfetch : fetch "_AGENTS.md" = Except.ok tmpl)
    (hunres : unresolved_tokens
      (render (dictUpdate (infer_replacements ps t args.language args.workflow) explicit)
        tmpl) ≠ []) :
    (main ps fetch t args).writes = [] ∧ (main ps fetch t args).made_plans_dir = false ∧
      (args.infer_only = false → (main ps fetch t args).code = 1) := by
  unfold main
  by_cases ht : args.target_ok = false
  · rw [if_pos ht]
    exact ⟨rfl, rfl, fun _ => rfl⟩
  · rw [if_neg ht, hparse, hfetch]
    dsimp only
    by_cases hio : args.infer_only = true
    · rw [if_pos hio]
      refine ⟨rfl, rfl, fun hfalse => ?_⟩
      rw [hfalse] at hio
      exact Bool.noConfusion hio
    · rw [if_neg hio]
      by_cases hmiss : print_placeholder_plan (unresolved_tokens tmpl)
          (dictUpdate (infer_replacements ps t args.language args.workflow) explicit) ≠ []
      · rw [if_pos hmiss]
        exact ⟨rfl, rfl, fun _ => rfl⟩
      · rw [if_neg hmiss]
        by_cases hex : ((collect_sources args.language args.workflow).map Prod.snd).filter
            (fun d => fsExists (destState t d)) ≠ [] ∧ args.force = false
        · rw [if_pos hex]
          exact ⟨rfl, rfl, fun _ => rfl⟩
        · rw [if_neg hex]
          have hrender : renderAll fetch tmpl
              (dictUpdate (infer_replacements ps t args.language args.workflow) explicit)
              (collect_sources args.language args.workflow) = none := by
            rw [show collect_sources args.language args.workflow =
              ("_AGENTS.md", "AGENTS.md") ::
                [("APP.md", "APP.md"), ("PLANS.md", "PLANS.md"),
                 (LANGUAGE_SOURCES args.language, "LANGUAGE.md"),
                 (WORKFLOW_SOURCES args.workflow, "WORKFLOW.md")] from rfl]
            unfold renderAll
            rw [if_pos rfl]
            dsimp only
            rw [if_pos ⟨rfl, hunres⟩]
          rw [hrender]
          exact ⟨rfl, rfl, fun _ => rfl⟩

/-- C6 (counterexample): in `--infer-only` mode a run whose primary
template still contains `\x7b\x7bX\x7d\x7d` after substitution exits 0,
not 1 (it does write zero files).  The claim's unconditional "exits with
code 1" is therefore false. -/
theorem C6_counterexample :
    parse_key_value ([] : List String) = Except.ok [] ∧
    fetchTokenX "_AGENTS.md" = Except.ok "\x7b\x7bX\x7d\x7d" ∧
    unresolved_tokens
      (render (dictUpdate (infer_replacements trivialPatterns emptyTarget Language.go
        Workflow.linear) []) "\x7b\x7bX\x7d\x7d") ≠ [] ∧
    main trivialPatterns fetchTokenX emptyTarget
      ⟨true, [], Language.go, Workflow.linear, false, false, true⟩ =
      ⟨0, [], false⟩ := by
  refine ⟨by decide, rfl, by decide, by decide⟩

theorem C6_witness :
    parse_key_value ([] : List String) = Except.ok [] ∧
    fetchTokenX "_AGENTS.md" = Except.ok "\x7b\x7bX\x7d\x7d" ∧
    unresolved_tokens
      (render (dictUpdate (infer_replacements trivialPatterns emptyTarget Language.go
        Workflow.linear) []) "\x7b\x7bX\x7d\x7d") ≠ [] ∧
    ((main trivialPatterns fetchTokenX emptyTarget
        ⟨true, [], Language.go, Workflow.linear, false, false, false⟩).writes = [] ∧
     (main trivialPatterns fetchTokenX emptyTarget
        ⟨true, [], Language.go, Workflow.linear, false, false, false⟩).made_plans_dir = false ∧
     (false = false → (main trivialPatterns fetchTokenX emptyTarget
        ⟨true, [], Language.go, Workflow.linear, false, false, false⟩).code = 1)) :=
  ⟨by decide, rfl, by decide,
    C6_unresolved_primary_aborts trivialPatterns fetchTokenX emptyTarget
      ⟨true, [], Language.go, Workflow.linear, false, false, false⟩ "\x7b\x7bX\x7d\x7d" []
      (by decide) rfl (by decide)⟩

/-- C7 (amended): when one of the five destination files already exists
and `--force` is not set, the run writes zero files and does not touch
`plans/` (so every existing file is unchanged); it exits with code 1
unless inference-only mode is set (`--infer-only` previews and exits 0
before the overwrite gate). -/
theorem C7_existing_destination_aborts (ps : Patterns) (fetch : String → Except String String)
    (t : TargetDir) (args : Args) (d : String)
    (hd : d ∈ ["AGENTS.md", "APP.md", "PLANS.md", "LANGUAGE.md", "WORKFLOW.md"])
    (hexists : fsExists (destState t d) = true) (hforce : args.force = false) :
    (main ps fetch t args).writes = [] ∧ (main ps fetch t args).made_plans_dir = false ∧
      (args.infer_only = false → (main ps fetch t args).code = 1) := by
  unfold main
  by_cases ht : args.target_ok = false
  · rw [if_pos ht]
    exact ⟨rfl, rfl, fun _ => rfl⟩
  · rw [if_neg ht]
    cases hparse : parse_key_value args.set_items with
    | error e => exact ⟨rfl, rfl, fun _ => rfl⟩
    | ok explicit =>
      cases hfetch : fetch "_AGENTS.md" with
      | error e => exact ⟨rfl, rfl, fun _ => rfl⟩
      | ok tmpl =>
        dsimp only
        by_cases hio : args.infer_only = true
        · rw [if_pos hio]
          refine ⟨rfl, rfl, fun hfalse => ?_⟩
          rw [hfalse] at hio
          exact Bool.noConfusion hio
        · rw [if_neg hio]
          by_cases hmiss : print_placeholder_plan (unresolved_tokens tmpl)
              (dictUpdate (infer_replacements ps t args.language args.workflow) explicit) ≠ []
          · rw [if_pos hmiss]
            exact ⟨rfl, rfl, fun _ => rfl⟩
          · rw [if_neg hmiss]
            have hmap : (collect_sources args.language args.workflow).map Prod.snd =
                ["AGENTS.md", "APP.md", "PLANS.md", "LANGUAGE.md", "WORKFLOW.md"] := rfl
            have hex : ((collect_sources args.language args.workflow).map Prod.snd).filter
                (fun d => fsExists (destState t d)) ≠ [] ∧ args.force = false := by
              refine ⟨?_, hforce⟩
              apply List.ne_nil_of_mem (a := d)
              rw [hmap]
              exact List.mem_filter.mpr ⟨hd, hexists⟩
            rw [if_pos hex]
            exact ⟨rfl, rfl, fun _ => rfl⟩

/-- C7 (counterexample): with an existing `AGENTS.md` destination, no
`--force`, and `--infer-only` set, the run exits 0, not 1 (still writing
zero files).  The claim's unconditional "exits with code 1" is therefore
false. -/
theorem C7_counterexample :
    fsExists (destState occupiedTarget "AGENTS.md") = true ∧
    main trivialPatterns fetchPlain occupiedTarget
      ⟨true, [], Language.go, Workflow.linear, false, false, true⟩ =
      ⟨0, [], false⟩ := by
  refine ⟨rfl, by decide⟩

theorem C7_witness :
    ("AGENTS.md" : String) ∈ ["AGENTS.md", "APP.md", "PLANS.md", "LANGUAGE.md", "WORKFLOW.md"] ∧
    fsExists (destState occupiedTarget "AGENTS.md") = true ∧
    ((main trivialPatterns fetchPlain occupiedTarget
        ⟨true, [], Language.go, Workflow.linear, false, false, false⟩).writes = [] ∧
     (main trivialPatterns fetchPlain occupiedTarget
        ⟨true, [], Language.go, Workflow.linear, false, false, false⟩).made_plans_dir = false ∧
     (false = false → (main trivialPatterns fetchPlain occupiedTarget
        ⟨true, [], Language.go, Workflow.linear, false, false, false⟩).code = 1)) :=
  ⟨by decide, rfl,
    C7_existing_destination_aborts trivialPatterns fetchPlain occupiedTarget
      ⟨true, [], Language.go, Workflow.linear, false, false, false⟩ "AGENTS.md"
      (by decide) rfl rfl⟩

end SetupRepo
